import Mathlib

/-
Verification of the lexical validation engine of the dictionary-checker
repository: a shallow embedding of `src/dictionary_checker.py`,
`src/hyphenated_handler.py` and `src/stemmer.py`, followed by theorems
about the embedded code.

Strings are modelled as lists of characters; Python `str.lower`,
`str.isalpha`, `str.strip`, `str.split('-')`, `str.replace('-','')`,
`str.startswith('-')` and `str.endswith('-')` are modelled character-wise
over the ASCII range (the range the SQLite `LOWER` used to build the word
cache folds).  The inner stemming algorithm (NLTK Porter/Snowball/WordNet)
is an opaque function parameter; `TokenStemmer.stem_token`'s wrapper logic
(alphabetic guard, case folding) is embedded faithfully.
-/

namespace DictCheck

/-! ## Data model and embedded code -/

/-- Tokens and word forms are lists of characters. -/
abbrev Str := List Char

/-- Model of Python `str.lower` on a single character (ASCII fold, as in
`Char.toLower` and SQLite `LOWER`). -/
def lowChar (c : Char) : Char := c.toLower

/-- Uppercase ASCII letter test. -/
def upperChar (c : Char) : Bool := decide (65 ≤ c.toNat ∧ c.toNat ≤ 90)

/-- Alphabetic ASCII letter test (model of the character class of Python
`str.isalpha` and of the regex `^[a-zA-Z]+$` in `stem_token`). -/
def alphaChar (c : Char) : Bool :=
  decide ((65 ≤ c.toNat ∧ c.toNat ≤ 90) ∨ (97 ≤ c.toNat ∧ c.toNat ≤ 122))

/-- Whitespace test (model of the character class stripped by Python
`str.strip`). -/
def wsChar (c : Char) : Bool :=
  decide (c.toNat = 32 ∨ c.toNat = 9 ∨ c.toNat = 10 ∨ c.toNat = 11 ∨ c.toNat = 12 ∨ c.toNat = 13)

/-- Model of Python `str.lower`. -/
def lowStr (s : Str) : Str := s.map lowChar

/-- Model of Python `str.isalpha` (nonempty and all alphabetic). -/
def isAlphaStr (s : Str) : Bool := !s.isEmpty && s.all alphaChar

/-- Model of Python `str.strip`. -/
def stripStr (s : Str) : Str := ((s.dropWhile wsChar).reverse.dropWhile wsChar).reverse

/-- Model of Python `'-' in word`. -/
def hasHyphen (s : Str) : Bool := decide ('-' ∈ s)

/-- Model of Python `word.replace('-', '')`. -/
def removeHyphens (s : Str) : Str := s.filter (fun c => !(c = '-' : Bool))

/-- Model of Python `word.startswith('-')`. -/
def startsWithHyphen (s : Str) : Bool :=
  match s with
  | [] => false
  | c :: _ => decide (c = '-')

/-- Model of Python `word.endswith('-')`. -/
def endsWithHyphen (s : Str) : Bool := startsWithHyphen s.reverse

/-- Model of Python `word.split('-')`. -/
def splitHyphen : Str → List Str
  | [] => [[]]
  | c :: rest =>
    if c = '-' then [] :: splitHyphen rest
    else (c :: (splitHyphen rest).headI) :: (splitHyphen rest).tail

/-- Match variants of `HyphenatedWordHandler.is_valid_hyphenated_word`
(the strings `'whole'`, `'dehyphenated'`, `'components'`,
`'stem_components'`, `'none'`). -/
inductive HyphMatch
  | whole
  | dehyphenated
  | components
  | stemComponents
  | none
deriving DecidableEq

/-- Match variants of `DictionaryChecker.is_in_dictionary` (the strings
`'original'`, `'stem'`, `'hyphenated_{type}'`, `'none'`). -/
inductive MatchType
  | original
  | stem
  | hyphenated (h : HyphMatch)
  | none
deriving DecidableEq

/-- The mutable `DictionaryChecker.stem_match_stats` counters. -/
structure Stats where
  originalMatches : Nat
  stemMatches : Nat
  hyphenatedMatches : Nat
  noMatches : Nat
deriving DecidableEq

/-- The counters as initialized in `DictionaryChecker.__init__`. -/
def stats0 : Stats := ⟨0, 0, 0, 0⟩

/-- Total of the four per-variant counters. -/
def statsSum (st : Stats) : Nat :=
  st.originalMatches + st.stemMatches + st.hyphenatedMatches + st.noMatches

def notHyphReason : Str := "not_hyphenated".data

def edgeHyphenReason : Str := "edge_hyphen_likely_ocr_error".data

def shortComponentReason : Str := "short_component_likely_ocr_error".data

/-- The `details` dictionary built by `is_valid_hyphenated_word`. -/
structure Details where
  original : Str := []
  components : List Str := []
  validComponents : List Str := []
  invalidComponents : List Str := []
  dehyphenated : Option Str := Option.none
  stemComponents : List (Str × Str) := []
  reason : Option Str := Option.none
  allComponentsValid : Bool := false
  allComponentsValidViaStem : Bool := false
deriving DecidableEq

/-- A `DictionaryChecker` after `__init__`: the rows of the `entries`
table of the SQLite database, the `use_stemming` flag, the optional inner
stemming algorithm of the attached `TokenStemmer` (an opaque function
`stem` applied by `stem_token` after its alphabetic guard and case fold),
and the `handle_hyphenated` flag. -/
structure Checker where
  entries : List Str
  useStemming : Bool
  stemmer : Option (Str → Str)
  handleHyphenated : Bool

/-- The `_word_cache` built by `_initialize_cache`:
`SELECT DISTINCT LOWER(word) FROM entries`. -/
def wordCache (c : Checker) : List Str := (c.entries.map lowStr).dedup

/-- `TokenStemmer.stem_token`: non-alphabetic tokens pass through case
folded; alphabetic tokens are case folded and given to the inner
algorithm. -/
def stemToken (f : Str → Str) (tok : Str) : Str :=
  if isAlphaStr tok then f (lowStr tok) else lowStr tok

/-- Lines 90 to 106 of `is_in_dictionary`: the non-hyphen path (exact
case-folded cache lookup, then the stem fallback), together with its
mutation of `stem_match_stats`. -/
def isInDictPlain (c : Checker) (caseSensitive : Bool) (w : Str) (st : Stats) :
    (Bool × MatchType) × Stats :=
  let checkWord := if caseSensitive then w else lowStr w
  if checkWord ∈ wordCache c then
    ((true, MatchType.original), { st with originalMatches := st.originalMatches + 1 })
  else
    match c.useStemming, c.stemmer with
    | true, some f =>
      let stemForm := stemToken f w
      let stemCheck := if caseSensitive then stemForm else lowStr stemForm
      if stemCheck ≠ checkWord ∧ stemCheck ∈ wordCache c then
        ((true, MatchType.stem), { st with stemMatches := st.stemMatches + 1 })
      else
        ((false, MatchType.none), { st with noMatches := st.noMatches + 1 })
    | _, _ => ((false, MatchType.none), { st with noMatches := st.noMatches + 1 })

/-- The components computed in strategy 3 of `is_valid_hyphenated_word`:
split on hyphens, strip each part, keep the nonempty ones. -/
def hyphComponents (w : Str) : List Str :=
  ((splitHyphen w).map stripStr).filter (fun p => !p.isEmpty)

/-- The alphabetic components among `hyphComponents`. -/
def alphaComponents (w : Str) : List Str := (hyphComponents w).filter isAlphaStr

/-- The component loop of strategy 3: for each alphabetic component an
inner `is_in_dictionary(part, allow_hyphenated=False)` lookup, returning
the `valid_components` list, the `invalid_components` list and
`valid_count`, threading the statistics. -/
def componentScan (c : Checker) : List Str → Stats → List Str × List Str × Nat × Stats
  | [], st => ([], [], 0, st)
  | p :: rest, st =>
    if isAlphaStr p then
      let r := isInDictPlain c false p st
      let s := componentScan c rest r.2
      if r.1.1 then (p :: s.1, s.2.1, s.2.2.1 + 1, s.2.2.2)
      else (s.1, p :: s.2.1, s.2.2.1, s.2.2.2)
    else componentScan c rest st

/-- The stem loop of strategy 4: for each alphabetic component not in
`valid_components`, an inner lookup of its stem, returning the
`stem_components` pairs and `stem_valid_count`. -/
def stemScan (c : Checker) (f : Str → Str) (valid : List Str) :
    List Str → Stats → List (Str × Str) × Nat × Stats
  | [], st => ([], 0, st)
  | p :: rest, st =>
    if p ∈ valid then stemScan c f valid rest st
    else
      let stm := stemToken f p
      let r := isInDictPlain c false stm st
      let s := stemScan c f valid rest r.2
      if r.1.1 then ((p, stm) :: s.1, s.2.1 + 1, s.2.2)
      else (s.1, s.2.1, s.2.2)

/-- Strategies 3 and 4 of `is_valid_hyphenated_word`: the structural
guards (edge hyphen, short alphabetic component), the component check and
the stem-component check. -/
def hyphRest (c : Checker) (w : Str) (d0 : Details) (st : Stats) :
    (Bool × HyphMatch × Details) × Stats :=
  let components := hyphComponents w
  let d1 := { d0 with components := components }
  if startsWithHyphen w || endsWithHyphen w then
    ((false, HyphMatch.none, { d1 with reason := some edgeHyphenReason }), st)
  else if components.any (fun p => isAlphaStr p && decide (p.length < 2)) then
    ((false, HyphMatch.none, { d1 with reason := some shortComponentReason }), st)
  else
    let s := componentScan c components st
    let d2 := { d1 with validComponents := s.1, invalidComponents := s.2.1 }
    let alphaComps := components.filter isAlphaStr
    if ¬ alphaComps.isEmpty ∧ s.2.2.1 = alphaComps.length then
      ((true, HyphMatch.components, { d2 with allComponentsValid := true }), s.2.2.2)
    else
      match c.stemmer with
      | some f =>
        if ¬ alphaComps.isEmpty then
          let t := stemScan c f s.1 alphaComps s.2.2.2
          let d3 := { d2 with stemComponents := t.1 }
          if s.2.2.1 + t.2.1 = alphaComps.length then
            ((true, HyphMatch.stemComponents, { d3 with allComponentsValidViaStem := true }), t.2.2)
          else ((false, HyphMatch.none, d3), t.2.2)
        else ((false, HyphMatch.none, d2), s.2.2.2)
      | Option.none => ((false, HyphMatch.none, d2), s.2.2.2)

/-- `HyphenatedWordHandler.is_valid_hyphenated_word`.  Its inner lookups
call `is_in_dictionary(-, allow_hyphenated=False)`, which is exactly the
plain path `isInDictPlain` (theorem `isInDictionary_noHyphenPath`
below). -/
def isValidHyphenatedWord (c : Checker) (w : Str) (st : Stats) :
    (Bool × HyphMatch × Details) × Stats :=
  if ¬ hasHyphen w then
    ((false, HyphMatch.none, { reason := some notHyphReason }), st)
  else
    let d0 : Details := { original := w }
    let r1 := isInDictPlain c false w st
    if r1.1.1 then ((true, HyphMatch.whole, d0), r1.2)
    else
      let dehyph := removeHyphens w
      if ¬ dehyph.isEmpty ∧ isAlphaStr dehyph then
        let r2 := isInDictPlain c false dehyph r1.2
        if r2.1.1 then
          ((true, HyphMatch.dehyphenated, { d0 with dehyphenated := some dehyph }), r2.2)
        else hyphRest c w d0 r2.2
      else hyphRest c w d0 r1.2

/-- `DictionaryChecker.is_in_dictionary`: the hyphen path when
`allow_hyphenated`, `handle_hyphenated` and `'-' in word` all hold, then
the plain path of lines 90 to 106. -/
def isInDictionary (c : Checker) (caseSensitive allowHyphenated : Bool) (w : Str) (st : Stats) :
    (Bool × MatchType) × Stats :=
  if allowHyphenated && c.handleHyphenated && hasHyphen w then
    let r := isValidHyphenatedWord c w st
    if r.1.1 then
      ((true, MatchType.hyphenated r.1.2.1),
        { r.2 with hyphenatedMatches := r.2.hyphenatedMatches + 1 })
    else isInDictPlain c caseSensitive w r.2
  else isInDictPlain c caseSensitive w st

/-- Where `analyze_tokens` places one token. -/
inductive Placement
  | original
  | hyphenated (h : HyphMatch) (d : Details)
  | stem (s : Str)
  | notFound
deriving DecidableEq

/-- Lines 176 to 188 of `analyze_tokens`: the stem check run when neither
the original form nor the hyphen handling matched. -/
def analyzeAfterHyphen (c : Checker) (token tokenLower : Str) : Placement :=
  match c.useStemming, c.stemmer with
  | true, some f =>
    let stemForm := stemToken f token
    if stemForm ≠ tokenLower ∧ stemForm ∈ wordCache c then Placement.stem stemForm
    else Placement.notFound
  | _, _ => Placement.notFound

/-- The body of the `for token in tokens` loop of `analyze_tokens`:
original form first, then the hyphenated handler, then the stem check. -/
def analyzeStep (c : Checker) (token : Str) (st : Stats) : Placement × Stats :=
  let tokenLower := lowStr token
  if tokenLower ∈ wordCache c then (Placement.original, st)
  else if c.handleHyphenated && hasHyphen token then
    let r := isValidHyphenatedWord c token st
    if r.1.1 then (Placement.hyphenated r.1.2.1 r.1.2.2, r.2)
    else (analyzeAfterHyphen c token tokenLower, r.2)
  else (analyzeAfterHyphen c token tokenLower, st)

/-- The four token lists accumulated by `analyze_tokens`. -/
structure AnalyzeAcc where
  foundTokens : List Str
  stemFoundTokens : List Str
  hyphenatedFoundTokens : List Str
  notFoundTokens : List Str
deriving DecidableEq

def emptyAcc : AnalyzeAcc := ⟨[], [], [], []⟩

/-- `DictionaryChecker.analyze_tokens` restricted to what it accumulates
per token: each token goes to exactly one of the four lists; the
statistics object is threaded through the handler calls. -/
def analyzeTokens (c : Checker) : List Str → Stats → AnalyzeAcc × Stats
  | [], st => (emptyAcc, st)
  | t :: rest, st =>
    let p := analyzeStep c t st
    let r := analyzeTokens c rest p.2
    match p.1 with
    | Placement.original => ({ r.1 with foundTokens := t :: r.1.foundTokens }, r.2)
    | Placement.hyphenated _ _ =>
      ({ r.1 with hyphenatedFoundTokens := t :: r.1.hyphenatedFoundTokens }, r.2)
    | Placement.stem _ => ({ r.1 with stemFoundTokens := t :: r.1.stemFoundTokens }, r.2)
    | Placement.notFound => ({ r.1 with notFoundTokens := t :: r.1.notFoundTokens }, r.2)

/-- The found/not-found boolean computed by the plain (non-hyphen) path
on a word, with the default case-insensitive lookup. -/
def plainFound (c : Checker) (w : Str) : Bool :=
  decide (lowStr w ∈ wordCache c) ||
    match c.useStemming, c.stemmer with
    | true, some f =>
      decide (lowStr (stemToken f w) ≠ lowStr w) && decide (lowStr (stemToken f w) ∈ wordCache c)
    | _, _ => false

/-- The resolution order of the hyphenated-word handler, written as the
ordered short-circuiting strategy list of the specification, with each
inner lookup being the checker's plain dictionary check `plainFound`
(exact case-folded lookup plus the stem fallback when stemming is
enabled on the checker). -/
def resolveOrdered (c : Checker) (w : Str) : Bool × HyphMatch :=
  if ¬ hasHyphen w then (false, HyphMatch.none)
  else if plainFound c w then (true, HyphMatch.whole)
  else if ¬ (removeHyphens w).isEmpty ∧ isAlphaStr (removeHyphens w) ∧
      plainFound c (removeHyphens w) then
    (true, HyphMatch.dehyphenated)
  else if startsWithHyphen w || endsWithHyphen w then (false, HyphMatch.none)
  else if (hyphComponents w).any (fun p => isAlphaStr p && decide (p.length < 2)) then
    (false, HyphMatch.none)
  else if ¬ (alphaComponents w).isEmpty ∧ (alphaComponents w).all (fun p => plainFound c p) then
    (true, HyphMatch.components)
  else
    match c.stemmer with
    | some f =>
      if ¬ (alphaComponents w).isEmpty ∧
          (alphaComponents w).all (fun p => plainFound c p || plainFound c (stemToken f p)) then
        (true, HyphMatch.stemComponents)
      else (false, HyphMatch.none)
    | Option.none => (false, HyphMatch.none)

/-- Whether the found boolean of the placement is true (the token landed
in one of the three found lists rather than in `not_found_tokens`). -/
def placementFound : Placement → Bool
  | Placement.notFound => false
  | _ => true

/-- The stem-branch condition of `analyze_tokens` (lines 180 to 185). -/
def analyzeStemBit (c : Checker) (t : Str) : Bool :=
  match c.useStemming, c.stemmer with
  | true, some f => decide (stemToken f t ≠ lowStr t ∧ stemToken f t ∈ wordCache c)
  | _, _ => false

def cC1 : Checker := ⟨[ "well-known".data ], false, Option.none, true⟩

def cC2 : Checker := ⟨[ "bacon".data ], false, Option.none, true⟩

def cC2e : Checker := ⟨[], false, Option.none, true⟩

def cC4 : Checker :=
  ⟨[ "run".data ], true, some (fun s => if s = "running".data then "run".data else s), true⟩

def cC5 : Checker := ⟨[ "cat".data ], false, Option.none, true⟩

def cC3 : Checker := ⟨[], false, Option.none, true⟩

def fC7 : Str → Str := fun s => if s = "running".data then "run".data else s

def cC7 : Checker := ⟨[ "run".data ], true, some fC7, true⟩

def cC9 : Checker := ⟨[ "cat".data ], false, Option.none, true⟩

def cC10 : Checker := ⟨[ "cat".data ], false, Option.none, true⟩

/-! ## Theorems -/

theorem toNat_ofNat_lt {n : Nat} (h : n < 55296) : (Char.ofNat n).toNat = n := by
  have hv : n.isValidChar := Or.inl h
  rw [Char.ofNat, dif_pos hv]
  simp [Char.ofNatAux, Char.toNat, UInt32.toNat]

theorem char_eq_iff_toNat {a b : Char} : a = b ↔ a.toNat = b.toNat := by
  constructor
  · intro h; rw [h]
  · intro h
    apply Char.ext
    apply UInt32.ext
    exact h

theorem lowChar_toNat (c : Char) :
    (lowChar c).toNat = if 65 ≤ c.toNat ∧ c.toNat ≤ 90 then c.toNat + 32 else c.toNat := by
  unfold lowChar Char.toLower
  split
  · next h =>
    rw [if_pos (by omega)]
    exact toNat_ofNat_lt (by omega)
  · next h => rw [if_neg (by omega)]

theorem upperChar_lowChar (c : Char) : upperChar (lowChar c) = false := by
  have h := lowChar_toNat c
  unfold upperChar
  by_cases hc : 65 ≤ c.toNat ∧ c.toNat ≤ 90
  · rw [if_pos hc] at h; simp [h]; omega
  · rw [if_neg hc] at h; simp [h]; omega

theorem lowChar_lowChar (c : Char) : lowChar (lowChar c) = lowChar c := by
  rw [char_eq_iff_toNat, lowChar_toNat, lowChar_toNat]
  split_ifs <;> omega

theorem lowChar_eq_iff (c d : Char) (hd : ¬ (65 ≤ d.toNat ∧ d.toNat ≤ 90))
    (hd2 : ¬ (97 ≤ d.toNat ∧ d.toNat ≤ 122)) : lowChar c = d ↔ c = d := by
  rw [char_eq_iff_toNat, char_eq_iff_toNat, lowChar_toNat]
  split_ifs with hc
  · omega
  · exact Iff.rfl

theorem alphaChar_lowChar (c : Char) : alphaChar (lowChar c) = alphaChar c := by
  unfold alphaChar
  rw [decide_eq_decide]
  have h := lowChar_toNat c
  split_ifs at h <;> rw [h] <;> omega

theorem wsChar_lowChar (c : Char) : wsChar (lowChar c) = wsChar c := by
  unfold wsChar
  rw [decide_eq_decide]
  have h := lowChar_toNat c
  split_ifs at h <;> rw [h] <;> omega

theorem lowChar_hyphen_iff (c : Char) : lowChar c = '-' ↔ c = '-' :=
  lowChar_eq_iff c '-' (by decide) (by decide)

theorem lowStr_lowStr (s : Str) : lowStr (lowStr s) = lowStr s := by
  unfold lowStr
  rw [List.map_map]
  exact List.map_congr_left fun c _ => lowChar_lowChar c

theorem lowStr_nil_iff (s : Str) : lowStr s = [] ↔ s = [] := by
  unfold lowStr
  exact List.map_eq_nil_iff

theorem all_alpha_lowStr (s : Str) : (s.map lowChar).all alphaChar = s.all alphaChar := by
  induction s with
  | nil => rfl
  | cons c rest ih => simp only [List.map_cons, List.all_cons, alphaChar_lowChar c, ih]

theorem isAlphaStr_lowStr (s : Str) : isAlphaStr (lowStr s) = isAlphaStr s := by
  unfold isAlphaStr lowStr
  rw [all_alpha_lowStr]
  cases s <;> rfl

theorem dropWhile_map_lowChar (s : Str) :
    (s.map lowChar).dropWhile wsChar = (s.dropWhile wsChar).map lowChar := by
  induction s with
  | nil => rfl
  | cons c rest ih =>
    simp only [List.map_cons, List.dropWhile_cons, wsChar_lowChar c]
    split
    · exact ih
    · rfl

theorem stripStr_lowStr (s : Str) : stripStr (lowStr s) = lowStr (stripStr s) := by
  unfold stripStr lowStr
  rw [dropWhile_map_lowChar, ← List.map_reverse, dropWhile_map_lowChar, ← List.map_reverse]

theorem hasHyphen_lowStr (s : Str) : hasHyphen (lowStr s) = hasHyphen s := by
  unfold hasHyphen lowStr
  rw [decide_eq_decide, List.mem_map]
  constructor
  · rintro ⟨c, hc, hlc⟩
    rw [lowChar_hyphen_iff] at hlc
    rwa [hlc] at hc
  · intro h
    exact ⟨'-', h, by decide⟩

theorem removeHyphens_lowStr (s : Str) : removeHyphens (lowStr s) = lowStr (removeHyphens s) := by
  unfold removeHyphens lowStr
  induction s with
  | nil => rfl
  | cons c rest ih =>
    simp only [List.map_cons, List.filter_cons]
    by_cases hc : c = '-'
    · have hlc : lowChar c = '-' := (lowChar_hyphen_iff c).2 hc
      simp only [hc, hlc]
      simpa using ih
    · have hlc : ¬ lowChar c = '-' := fun h => hc ((lowChar_hyphen_iff c).1 h)
      simp only [decide_eq_false hc, decide_eq_false hlc, Bool.not_false, if_true]
      rw [List.map_cons, ih]

theorem startsWithHyphen_lowStr (s : Str) : startsWithHyphen (lowStr s) = startsWithHyphen s := by
  unfold startsWithHyphen lowStr
  cases s with
  | nil => rfl
  | cons c rest =>
    simp only [List.map_cons]
    rw [decide_eq_decide]
    exact lowChar_hyphen_iff c

theorem endsWithHyphen_lowStr (s : Str) : endsWithHyphen (lowStr s) = endsWithHyphen s := by
  unfold endsWithHyphen lowStr
  rw [← List.map_reverse]
  exact startsWithHyphen_lowStr s.reverse

theorem splitHyphen_ne_nil (s : Str) : splitHyphen s ≠ [] := by
  cases s with
  | nil => simp [splitHyphen]
  | cons c rest =>
    unfold splitHyphen
    split <;> simp

theorem splitHyphen_lowStr (s : Str) : splitHyphen (lowStr s) = (splitHyphen s).map lowStr := by
  induction s with
  | nil => rfl
  | cons c rest ih =>
    show splitHyphen (lowChar c :: lowStr rest) = _
    unfold splitHyphen
    have hiff := lowChar_hyphen_iff c
    by_cases hc : c = '-'
    · rw [if_pos (hiff.2 hc), if_pos hc, ih]
      rfl
    · rw [if_neg (fun h => hc (hiff.1 h)), if_neg hc, ih]
      cases hsp : splitHyphen rest with
      | nil => exact absurd hsp (splitHyphen_ne_nil rest)
      | cons h t => simp [List.headI, lowStr]

theorem isInDictPlain_fst_congr (c : Checker) (cs : Bool) (w : Str) (st st' : Stats) :
    (isInDictPlain c cs w st).1 = (isInDictPlain c cs w st').1 := by
  unfold isInDictPlain
  cases hu : c.useStemming <;> cases hs : c.stemmer <;> dsimp only <;> split_ifs <;> rfl

theorem isInDictPlain_found (c : Checker) (w : Str) (st : Stats) :
    (isInDictPlain c false w st).1.1 = plainFound c w := by
  unfold isInDictPlain plainFound
  cases hu : c.useStemming <;> cases hs : c.stemmer <;>
    simp only [Bool.false_eq_true, if_false] <;> split_ifs with h1 h2 <;>
    simp_all

theorem stemToken_lowStr (f : Str → Str) (w : Str) : stemToken f (lowStr w) = stemToken f w := by
  unfold stemToken
  rw [isAlphaStr_lowStr]
  split
  · rw [lowStr_lowStr]
  · rw [lowStr_lowStr]

theorem plainFound_lowStr (c : Checker) (w : Str) : plainFound c (lowStr w) = plainFound c w := by
  unfold plainFound
  simp only [stemToken_lowStr, lowStr_lowStr]

theorem countP_disjoint_add {α : Type} (l : List α) (p q : α → Bool)
    (h : ∀ a ∈ l, p a = true → q a = false) :
    l.countP p + l.countP q = l.countP (fun a => p a || q a) := by
  induction l with
  | nil => rfl
  | cons a rest ih =>
    have hrest := ih (fun b hb => h b (List.mem_cons_of_mem a hb))
    simp only [List.countP_cons]
    cases hp : p a
    · cases hq : q a <;> simp [hp, hq] <;> omega
    · have hqa : q a = false := h a (List.mem_cons_self a rest) hp
      simp [hp, hqa]
      omega

theorem componentScan_spec (c : Checker) (l : List Str) (st : Stats) :
    (componentScan c l st).1 = l.filter (fun p => isAlphaStr p && plainFound c p) ∧
    (componentScan c l st).2.1 = l.filter (fun p => isAlphaStr p && !plainFound c p) ∧
    (componentScan c l st).2.2.1 = (l.filter (fun p => isAlphaStr p && plainFound c p)).length := by
  induction l generalizing st with
  | nil => exact ⟨rfl, rfl, rfl⟩
  | cons p rest ih =>
    unfold componentScan
    dsimp only
    rw [isInDictPlain_found]
    obtain ⟨ih1, ih2, ih3⟩ := ih ((isInDictPlain c false p st).2)
    obtain ⟨jh1, jh2, jh3⟩ := ih st
    cases ha : isAlphaStr p <;> cases hf : plainFound c p <;>
      simp [ha, hf, List.filter_cons, ih1, ih2, ih3, jh1, jh2, jh3]

theorem stemScan_count (c : Checker) (f : Str → Str) (valid l : List Str) (st : Stats) :
    (stemScan c f valid l st).2.1 =
      l.countP (fun p => !decide (p ∈ valid) && plainFound c (stemToken f p)) := by
  induction l generalizing st with
  | nil => rfl
  | cons p rest ih =>
    unfold stemScan
    dsimp only
    rw [isInDictPlain_found]
    by_cases hv : p ∈ valid <;> cases hf : plainFound c (stemToken f p) <;>
      simp [hv, hf, List.countP_cons, ih]

theorem hyphRest_resolve (c : Checker) (w : Str) (d0 : Details) (st : Stats) :
    ((hyphRest c w d0 st).1.1, (hyphRest c w d0 st).1.2.1) =
      (if startsWithHyphen w || endsWithHyphen w then (false, HyphMatch.none)
      else if (hyphComponents w).any (fun p => isAlphaStr p && decide (p.length < 2)) then
        (false, HyphMatch.none)
      else if ¬ (alphaComponents w).isEmpty ∧
          (alphaComponents w).all (fun p => plainFound c p) then
        (true, HyphMatch.components)
      else
        match c.stemmer with
        | some f =>
          if ¬ (alphaComponents w).isEmpty ∧
              (alphaComponents w).all (fun p => plainFound c p || plainFound c (stemToken f p)) then
            (true, HyphMatch.stemComponents)
          else (false, HyphMatch.none)
        | Option.none => (false, HyphMatch.none)) := by
  unfold hyphRest alphaComponents
  dsimp only
  cases he : (startsWithHyphen w || endsWithHyphen w)
  case true => simp [he]
  case false =>
    simp only [he, Bool.false_eq_true, if_false]
    cases hsh : (hyphComponents w).any (fun p => isAlphaStr p && decide (p.length < 2))
    case true => simp [hsh]
    case false =>
      simp only [hsh, Bool.false_eq_true, if_false]
      obtain ⟨h1, _h2, h3⟩ := componentScan_spec c (hyphComponents w) st
      rw [h1, h3]
      have hfilter : (hyphComponents w).filter (fun p => isAlphaStr p && plainFound c p) =
          ((hyphComponents w).filter isAlphaStr).filter (fun p => plainFound c p) := by
        rw [List.filter_filter]
        exact List.filter_congr fun p _ => by cases isAlphaStr p <;> cases plainFound c p <;> rfl
      have hcountiff : (((hyphComponents w).filter
            (fun p => isAlphaStr p && plainFound c p)).length =
            ((hyphComponents w).filter isAlphaStr).length) ↔
          ((hyphComponents w).filter isAlphaStr).all (fun p => plainFound c p) = true := by
        rw [hfilter, ← List.countP_eq_length_filter]
        rw [List.countP_eq_length]
        rw [List.all_eq_true]
      by_cases hcomp : ¬ ((hyphComponents w).filter isAlphaStr).isEmpty ∧
          (((hyphComponents w).filter (fun p => isAlphaStr p && plainFound c p)).length =
            ((hyphComponents w).filter isAlphaStr).length)
      · rw [if_pos hcomp, if_pos ⟨hcomp.1, hcountiff.1 hcomp.2⟩]
      · rw [if_neg hcomp, if_neg (fun hc => hcomp ⟨hc.1, hcountiff.2 hc.2⟩)]
        cases hstem : c.stemmer with
        | none => rfl
        | some f =>
          dsimp only
          by_cases hne : ¬ ((hyphComponents w).filter isAlphaStr).isEmpty
          · rw [if_pos hne]
            rw [stemScan_count]
            have hvmem : ∀ p ∈ (hyphComponents w).filter isAlphaStr,
                (!decide (p ∈ (hyphComponents w).filter
                    (fun p => isAlphaStr p && plainFound c p)) &&
                  plainFound c (stemToken f p)) =
                (!plainFound c p && plainFound c (stemToken f p)) := by
              intro p hp
              rw [List.mem_filter] at hp
              have : decide (p ∈ (hyphComponents w).filter
                  (fun p => isAlphaStr p && plainFound c p)) = plainFound c p := by
                cases hpf : plainFound c p
                · simp [List.mem_filter, hpf]
                · simp [List.mem_filter, hpf, hp.1, hp.2]
              rw [this]
            have hcount2 : ((hyphComponents w).filter isAlphaStr).countP
                  (fun p => !decide (p ∈ (hyphComponents w).filter
                    (fun p => isAlphaStr p && plainFound c p)) &&
                    plainFound c (stemToken f p)) =
                ((hyphComponents w).filter isAlphaStr).countP
                  (fun p => !plainFound c p && plainFound c (stemToken f p)) := by
              exact List.countP_congr fun p hp => by rw [hvmem p hp]
            rw [hcount2]
            have hvalidcount : ((hyphComponents w).filter
                  (fun p => isAlphaStr p && plainFound c p)).length =
                ((hyphComponents w).filter isAlphaStr).countP (fun p => plainFound c p) := by
              rw [hfilter, ← List.countP_eq_length_filter]
            rw [hvalidcount]
            have hdisj := countP_disjoint_add ((hyphComponents w).filter isAlphaStr)
              (fun p => plainFound c p) (fun p => !plainFound c p && plainFound c (stemToken f p))
              (fun a _ ha => by
                have ha2 : plainFound c a = true := ha
                show (!plainFound c a && plainFound c (stemToken f a)) = false
                rw [ha2]
                rfl)
            rw [hdisj]
            beta_reduce
            have hor : ((hyphComponents w).filter isAlphaStr).countP
                  (fun a => plainFound c a || (!plainFound c a && plainFound c (stemToken f a))) =
                ((hyphComponents w).filter isAlphaStr).countP
                  (fun a => plainFound c a || plainFound c (stemToken f a)) := by
              exact List.countP_congr fun a _ => by
                cases plainFound c a <;> cases plainFound c (stemToken f a) <;> simp
            rw [hor]
            have hiff2 : (((hyphComponents w).filter isAlphaStr).countP
                  (fun a => plainFound c a || plainFound c (stemToken f a)) =
                  ((hyphComponents w).filter isAlphaStr).length) ↔
                (((hyphComponents w).filter isAlphaStr).all
                  (fun p => plainFound c p || plainFound c (stemToken f p)) = true) := by
              rw [List.countP_eq_length, List.all_eq_true]
            by_cases hs2 : ((hyphComponents w).filter isAlphaStr).countP
                (fun a => plainFound c a || plainFound c (stemToken f a)) =
                ((hyphComponents w).filter isAlphaStr).length
            · rw [if_pos hs2, if_pos ⟨hne, hiff2.1 hs2⟩]
            · rw [if_neg hs2, if_neg (fun hc => hs2 (hiff2.2 hc.2))]
          · rw [if_neg hne, if_neg (fun hc => hne hc.1)]

theorem isValidHyphenatedWord_resolve (c : Checker) (w : Str) (st : Stats) :
    ((isValidHyphenatedWord c w st).1.1, (isValidHyphenatedWord c w st).1.2.1) =
      resolveOrdered c w := by
  unfold isValidHyphenatedWord resolveOrdered
  dsimp only
  by_cases hh : ¬ hasHyphen w
  · rw [if_pos hh, if_pos hh]
  · rw [if_neg hh, if_neg hh]
    rw [isInDictPlain_found]
    by_cases h1 : plainFound c w = true
    · rw [if_pos h1, if_pos h1]
    · rw [if_neg h1, if_neg h1]
      by_cases h2 : ¬ (removeHyphens w).isEmpty ∧ (isAlphaStr (removeHyphens w)) = true
      · rw [if_pos h2]
        rw [isInDictPlain_found]
        by_cases h3 : plainFound c (removeHyphens w) = true
        · rw [if_pos h3, if_pos ⟨h2.1, h2.2, h3⟩]
        · rw [if_neg h3, if_neg (fun hc => h3 hc.2.2)]
          exact hyphRest_resolve c w _ _
      · rw [if_neg h2, if_neg (fun hc => h2 ⟨hc.1, hc.2.1⟩)]
        exact hyphRest_resolve c w _ _

theorem length_lowStr (s : Str) : (lowStr s).length = s.length := by
  unfold lowStr
  exact List.length_map s lowChar

theorem isEmpty_lowStr (s : Str) : (lowStr s).isEmpty = s.isEmpty := by
  cases s <;> rfl

theorem isEmpty_map_lowStr (l : List Str) : (l.map lowStr).isEmpty = l.isEmpty := by
  cases l <;> rfl

theorem hyphComponents_lowStr (w : Str) :
    hyphComponents (lowStr w) = (hyphComponents w).map lowStr := by
  unfold hyphComponents
  rw [splitHyphen_lowStr, List.map_map, List.filter_map]
  have h1 : stripStr ∘ lowStr = lowStr ∘ stripStr := funext fun p => stripStr_lowStr p
  rw [h1, ← List.map_map, List.filter_map]
  congr 2
  apply List.filter_congr
  intro p _
  simp [Function.comp, isEmpty_lowStr]

theorem alphaComponents_lowStr (w : Str) :
    alphaComponents (lowStr w) = (alphaComponents w).map lowStr := by
  unfold alphaComponents
  rw [hyphComponents_lowStr, List.filter_map]
  have h1 : (isAlphaStr ∘ lowStr) = isAlphaStr := funext fun p => isAlphaStr_lowStr p
  rw [h1]

theorem isInDictionary_fst_eq (c : Checker) (cs aH : Bool) (w : Str) (st : Stats) :
    (isInDictionary c cs aH w st).1 =
      if aH && c.handleHyphenated && hasHyphen w then
        (if (resolveOrdered c w).1 then (true, MatchType.hyphenated (resolveOrdered c w).2)
         else (isInDictPlain c cs w stats0).1)
      else (isInDictPlain c cs w stats0).1 := by
  unfold isInDictionary
  dsimp only
  by_cases hb : (aH && c.handleHyphenated && hasHyphen w) = true
  · rw [if_pos hb, if_pos hb]
    have hres := isValidHyphenatedWord_resolve c w st
    have hb1 : (isValidHyphenatedWord c w st).1.1 = (resolveOrdered c w).1 :=
      congrArg Prod.fst hres
    have hb2 : (isValidHyphenatedWord c w st).1.2.1 = (resolveOrdered c w).2 :=
      congrArg Prod.snd hres
    rw [hb1, hb2]
    cases hr : (resolveOrdered c w).1
    · rw [if_neg (by simp [hr]), if_neg (by simp [hr])]
      exact isInDictPlain_fst_congr c cs w _ _
    · rw [if_pos (by simp [hr]), if_pos (by simp [hr])]
  · rw [if_neg hb, if_neg hb]
    exact isInDictPlain_fst_congr c cs w _ _

theorem analyzeAfterHyphen_found (c : Checker) (t : Str) :
    placementFound (analyzeAfterHyphen c t (lowStr t)) = analyzeStemBit c t := by
  unfold analyzeAfterHyphen analyzeStemBit
  cases hu : c.useStemming
  · cases hs : c.stemmer <;> rfl
  · cases hs : c.stemmer with
    | none => rfl
    | some f =>
      dsimp only
      by_cases h : stemToken f t ≠ lowStr t ∧ stemToken f t ∈ wordCache c
      · rw [if_pos h]
        simp [placementFound, h]
      · rw [if_neg h]
        simp [placementFound, h]

theorem analyzeStep_found (c : Checker) (t : Str) (st : Stats) :
    placementFound (analyzeStep c t st).1 =
      (decide (lowStr t ∈ wordCache c) ||
       (c.handleHyphenated && hasHyphen t && (resolveOrdered c t).1) ||
       analyzeStemBit c t) := by
  unfold analyzeStep
  dsimp only
  by_cases hm : lowStr t ∈ wordCache c
  · rw [if_pos hm]
    simp [placementFound, hm]
  · rw [if_neg hm]
    have hmd : decide (lowStr t ∈ wordCache c) = false := by simp [hm]
    rw [hmd, Bool.false_or]
    by_cases hb : (c.handleHyphenated && hasHyphen t) = true
    · rw [if_pos hb]
      have hres := isValidHyphenatedWord_resolve c t st
      have hb1 : (isValidHyphenatedWord c t st).1.1 = (resolveOrdered c t).1 :=
        congrArg Prod.fst hres
      rw [hb1]
      cases hr : (resolveOrdered c t).1
      · rw [if_neg (by simp [hr])]
        rw [analyzeAfterHyphen_found]
        simp [hr]
      · rw [if_pos (by simp [hr])]
        simp [placementFound, hb, hr]
    · rw [if_neg hb]
      rw [analyzeAfterHyphen_found]
      have hbf : (c.handleHyphenated && hasHyphen t) = false := by
        cases hx : (c.handleHyphenated && hasHyphen t)
        · rfl
        · exact absurd hx hb
      simp [hbf]

theorem plainFound_bits (c : Checker) (t : Str)
    (hwf : ∀ f, c.stemmer = some f → ∀ s, lowStr (f s) = f s) :
    plainFound c t = (decide (lowStr t ∈ wordCache c) || analyzeStemBit c t) := by
  unfold plainFound analyzeStemBit
  cases hu : c.useStemming
  · cases hs : c.stemmer <;> simp
  · cases hs : c.stemmer with
    | none => simp
    | some f =>
      have hlow : lowStr (stemToken f t) = stemToken f t := by
        unfold stemToken
        split
        · exact hwf f hs _
        · exact lowStr_lowStr t
      dsimp only
      rw [hlow]
      simp

theorem resolveOrdered_lowStr (c : Checker) (w : Str) :
    resolveOrdered c (lowStr w) = resolveOrdered c w := by
  unfold resolveOrdered
  cases hstem : c.stemmer <;>
    simp only [hasHyphen_lowStr, plainFound_lowStr, removeHyphens_lowStr, isEmpty_lowStr,
      isAlphaStr_lowStr, startsWithHyphen_lowStr, endsWithHyphen_lowStr, hyphComponents_lowStr,
      alphaComponents_lowStr, isEmpty_map_lowStr, List.any_map, List.all_map,
      Function.comp_def, length_lowStr, stemToken_lowStr]

theorem wordCache_no_upper (c : Checker) (w : Str) (hw : w ∈ wordCache c) (ch : Char)
    (hc : ch ∈ w) : upperChar ch = false := by
  unfold wordCache at hw
  rw [List.mem_dedup, List.mem_map] at hw
  obtain ⟨e, _, he⟩ := hw
  subst he
  unfold lowStr at hc
  rw [List.mem_map] at hc
  obtain ⟨d, _, hd⟩ := hc
  rw [← hd]
  exact upperChar_lowChar d

/-- Claim C1, counterexample: the token `well-known`, whose case-folded
form is in the store, is classified by `is_in_dictionary` as
`hyphenated_whole`, not `original`: the hyphen path runs before the exact
case-folded store lookup, so the claim "returns Original ... regardless
of whether the token contains a hyphen, because the exact case-folded
store lookup is evaluated before any fallback path" fails on the code. -/
theorem c1_counterexample :
    lowStr "well-known".data ∈ wordCache cC1 ∧
    (isInDictionary cC1 false true "well-known".data stats0).1 ≠ (true, MatchType.original) := by
  decide

/-- Claim C1 as amended: for every token whose case-folded form is in the
store, `is_in_dictionary` returns found; the variant is `Original` unless
hyphen handling is on and the token contains a hyphen, in which case the
hyphen path runs first and reports `hyphenated_whole`. -/
theorem c1_amended (c : Checker) (w : Str) (st : Stats) (h : lowStr w ∈ wordCache c) :
    (isInDictionary c false true w st).1 =
      (if c.handleHyphenated && hasHyphen w then (true, MatchType.hyphenated HyphMatch.whole)
       else (true, MatchType.original)) := by
  have hpf : plainFound c w = true := by
    unfold plainFound
    simp [h]
  rw [isInDictionary_fst_eq, Bool.true_and]
  by_cases hb : (c.handleHyphenated && hasHyphen w) = true
  · rw [if_pos hb, if_pos hb]
    have hhy : hasHyphen w = true := (Bool.and_eq_true _ _ |>.mp hb).2
    have hres : resolveOrdered c w = (true, HyphMatch.whole) := by
      unfold resolveOrdered
      rw [if_neg (by simp [hhy]), if_pos hpf]
    rw [hres]
    rfl
  · rw [if_neg hb, if_neg hb]
    unfold isInDictPlain
    dsimp only
    simp only [Bool.false_eq_true, if_false]
    rw [if_pos h]

/-- Witness for the amended claim C1 at a concrete input: a differently
cased hyphenated token whose case-folded form is in the store. -/
theorem c1_witness :
    (isInDictionary cC1 false true "Well-KNOWN".data stats0).1 =
      (if cC1.handleHyphenated && hasHyphen "Well-KNOWN".data then
        (true, MatchType.hyphenated HyphMatch.whole)
       else (true, MatchType.original)) :=
  c1_amended cC1 "Well-KNOWN".data stats0 (by decide)

/-- Claim C2, counterexample: `-bacon` starts with a hyphen and `bacon`
is in the store, yet classification returns found with variant
`hyphenated_dehyphenated` instead of NotFound with an OCR-error reason:
the dehyphenation strategy runs before the structural rejection guard. -/
theorem c2_counterexample :
    startsWithHyphen "-bacon".data = true ∧
    lowStr "bacon".data ∈ wordCache cC2 ∧
    (isInDictionary cC2 false true "-bacon".data stats0).1 =
      (true, MatchType.hyphenated HyphMatch.dehyphenated) := by
  decide

/-- Claim C2 as amended: the structural guard fires before the component
checks but after the whole-word and dehyphenation strategies; whenever
those two miss, a token with an edge hyphen, or with a short alphabetic
component, resolves to not-found with a `likely_ocr_error` reason even if
its components are in the store. -/
theorem c2_amended (c : Checker) (w : Str) (st : Stats)
    (hh : hasHyphen w = true)
    (h1 : plainFound c w = false)
    (h2 : (¬ (removeHyphens w).isEmpty ∧ isAlphaStr (removeHyphens w) = true) →
      plainFound c (removeHyphens w) = false)
    (h3 : startsWithHyphen w = true ∨ endsWithHyphen w = true ∨
      (hyphComponents w).any (fun p => isAlphaStr p && decide (p.length < 2)) = true) :
    (isValidHyphenatedWord c w st).1.1 = false ∧
    ((isValidHyphenatedWord c w st).1.2.2.reason = some edgeHyphenReason ∨
     (isValidHyphenatedWord c w st).1.2.2.reason = some shortComponentReason) := by
  have hrest : ∀ d0 st2, (hyphRest c w d0 st2).1.1 = false ∧
      ((hyphRest c w d0 st2).1.2.2.reason = some edgeHyphenReason ∨
       (hyphRest c w d0 st2).1.2.2.reason = some shortComponentReason) := by
    intro d0 st2
    unfold hyphRest
    dsimp only
    by_cases he : (startsWithHyphen w || endsWithHyphen w) = true
    · rw [if_pos he]
      exact ⟨rfl, Or.inl rfl⟩
    · have hsh : ((hyphComponents w).any
          (fun p => isAlphaStr p && decide (p.length < 2))) = true := by
        rcases h3 with h3 | h3 | h3
        · exact absurd (by simp [h3]) he
        · exact absurd (by simp [h3]) he
        · exact h3
      rw [if_neg he, if_pos hsh]
      exact ⟨rfl, Or.inr rfl⟩
  unfold isValidHyphenatedWord
  dsimp only
  rw [if_neg (by simp [hh])]
  rw [isInDictPlain_found, h1]
  rw [if_neg (by simp)]
  by_cases h2c : ¬ (removeHyphens w).isEmpty ∧ isAlphaStr (removeHyphens w) = true
  · rw [if_pos h2c]
    rw [isInDictPlain_found, h2 h2c]
    rw [if_neg (by simp)]
    exact hrest _ _
  · rw [if_neg h2c]
    exact hrest _ _

/-- Witness for the amended claim C2 at a concrete input. -/
theorem c2_witness :
    (isValidHyphenatedWord cC2e "-bacon".data stats0).1.1 = false ∧
    ((isValidHyphenatedWord cC2e "-bacon".data stats0).1.2.2.reason = some edgeHyphenReason ∨
     (isValidHyphenatedWord cC2e "-bacon".data stats0).1.2.2.reason =
       some shortComponentReason) :=
  c2_amended cC2e "-bacon".data stats0 (by decide) (by decide) (fun _ => by decide)
    (Or.inl (by decide))

/-- Claim C4, counterexample: with stemming enabled on the checker, the
component check of the hyphen resolver succeeds through the stem fallback
of the inner lookups: `running-running` resolves with variant
`components` although the segment `running` is not in the store (only its
stem `run` is), where the claim demands that the component check succeed
only when all alphabetic segments are found directly, reserving this
input for the stem-component strategy. -/
theorem c4_counterexample :
    (isValidHyphenatedWord cC4 "running-running".data stats0).1.1 = true ∧
    (isValidHyphenatedWord cC4 "running-running".data stats0).1.2.1 = HyphMatch.components ∧
    "running".data ∈ alphaComponents "running-running".data ∧
    "running".data ∉ wordCache cC4 := by
  decide

/-- Claim C4 as amended: the resolver evaluates whole-word lookup,
dehyphenated lookup (when the stripped form is purely alphabetic), the
structural guard, the component check and the stem-component check (when
a stemmer is supplied) in this strict order, returning the variant of the
first success and not-found otherwise — where every inner lookup is the
checker's full plain dictionary check (`plainFound`: exact case-folded
lookup plus the stem fallback when stemming is enabled), not a bare store
lookup. -/
theorem c4_amended (c : Checker) (w : Str) (st : Stats) :
    ((isValidHyphenatedWord c w st).1.1, (isValidHyphenatedWord c w st).1.2.1) =
      resolveOrdered c w :=
  isValidHyphenatedWord_resolve c w st

/-- Claim C5, counterexample: after analyzing the one-token stream
`[cat]`, the per-variant `stem_match_stats` counters all remain zero and
sum to 0, not to the stream length 1: `analyze_tokens` consults the word
cache directly and bypasses the counter updates of `is_in_dictionary`. -/
theorem c5_counterexample :
    statsSum (analyzeTokens cC5 [ "cat".data ] stats0).2 = 0 ∧
    ([ "cat".data ] : List Str).length = 1 := by
  decide

/-- Claim C5 as amended: the per-variant token lists built by
`analyze_tokens` (found, stem-found, hyphenated-found, not-found), whose
lengths are the per-variant counts of its result, partition the stream:
their lengths sum exactly to the number of tokens.  The mutable
`stem_match_stats` counters do not satisfy this. -/
theorem c5_amended (c : Checker) (tokens : List Str) (st : Stats) :
    (analyzeTokens c tokens st).1.foundTokens.length +
    (analyzeTokens c tokens st).1.stemFoundTokens.length +
    (analyzeTokens c tokens st).1.hyphenatedFoundTokens.length +
    (analyzeTokens c tokens st).1.notFoundTokens.length = tokens.length := by
  induction tokens generalizing st with
  | nil => rfl
  | cons t rest ih =>
    unfold analyzeTokens
    dsimp only
    have hr := ih ((analyzeStep c t st).2)
    cases hp : (analyzeStep c t st).1 <;> dsimp only <;>
      simp only [List.length_cons] <;> omega

/-- Claim C6: classification is deterministic and independent of the
mutable statistics counters — for any fixed checker configuration, the
`(found, match_type)` result of `is_in_dictionary` is the same whatever
the current `stem_match_stats` state, so repeated identical calls return
identical results. -/
theorem c6_deterministic (c : Checker) (cs aH : Bool) (w : Str) (st st2 : Stats) :
    (isInDictionary c cs aH w st).1 = (isInDictionary c cs aH w st2).1 := by
  rw [isInDictionary_fst_eq, isInDictionary_fst_eq]

/-- Claim C8: an inner lookup performed with `allow_hyphenated=False` —
the form of every store lookup made from inside the hyphenated-word
handler — is exactly the plain path of `is_in_dictionary` (lines 90 to
106) and never re-enters the hyphen resolver; the handler's result is
also independent of the `handle_hyphenated` flag.  Together with the
totality of the embedded functions this gives termination of resolution. -/
theorem c8_recursion_guard (c : Checker) (cs b : Bool) (w : Str) (st : Stats) :
    isInDictionary c cs false w st = isInDictPlain c cs w st ∧
    isInDictionary (Checker.mk c.entries c.useStemming c.stemmer b) cs false w st =
      isInDictPlain c cs w st :=
  ⟨rfl, rfl⟩

theorem plainFound_empty (us hh : Bool) (f : Option (Str → Str)) (w : Str) :
    plainFound (Checker.mk [] us f hh) w = false := by
  unfold plainFound wordCache
  cases us <;> cases f <;> simp

theorem resolveOrdered_fst_false (c : Checker) (w : Str)
    (hp : ∀ v : Str, plainFound c v = false) :
    (resolveOrdered c w).1 = false := by
  unfold resolveOrdered
  cases hstem : c.stemmer <;>
    simp only [hp, Bool.false_eq_true, false_and, and_false, if_false, Bool.false_or] <;>
    split_ifs <;>
    first
    | rfl
    | (simp_all [List.all_eq_true, List.isEmpty_iff, List.eq_nil_iff_forall_not_mem]
       rename_i h
       exact h.2 h.1.choose h.1.choose_spec)

/-- Claim C3, counterexample: a checker over a source with zero entries is
constructed without any error, its cache loads as the empty set, and
per-token classification proceeds, returning not-found: there is no
`StoreUnavailable`-style construction failure in the code (the cache is
loaded lazily at first lookup, and emptiness is never checked). -/
theorem c3_counterexample :
    wordCache cC3 = [] ∧
    (isInDictionary cC3 false true "cat".data stats0).1 = (false, MatchType.none) := by
  decide

/-- Claim C3 as amended: constructing a checker over an empty vocabulary
source succeeds for every configuration; the cache is the empty set and
every token — hyphenated or not, stemming on or off — classifies as
not-found instead of any failure being raised. -/
theorem c3_amended (us hh : Bool) (f : Option (Str → Str)) (w : Str) (st : Stats) :
    wordCache (Checker.mk [] us f hh) = [] ∧
    (isInDictionary (Checker.mk [] us f hh) false true w st).1 = (false, MatchType.none) := by
  refine ⟨rfl, ?_⟩
  have hplain : (isInDictPlain (Checker.mk [] us f hh) false w stats0).1 =
      (false, MatchType.none) := by
    unfold isInDictPlain wordCache
    cases us <;> cases f <;> simp
  have hro := resolveOrdered_fst_false (Checker.mk [] us f hh) w
    (fun v => plainFound_empty us hh f v)
  rw [isInDictionary_fst_eq]
  split_ifs with h1 h2
  · rw [hro] at h2
    exact absurd h2 (by decide)
  · exact hplain
  · exact hplain

/-- Claim C7: for a non-hyphenated token whose case-folded form is not in
the store, if stemming is enabled (flag set and stemmer attached) and the
case-folded stemmed form differs from the case-folded token and is in
the store, classification returns `stem`; with the stemming flag cleared
the same token returns not-found. -/
theorem c7_stem_fallback (c : Checker) (f : Str → Str) (w : Str) (st : Stats)
    (hstem : c.useStemming = true) (hf : c.stemmer = some f)
    (hnh : hasHyphen w = false)
    (hmem : lowStr w ∉ wordCache c)
    (hne : lowStr (stemToken f w) ≠ lowStr w)
    (hsm : lowStr (stemToken f w) ∈ wordCache c) :
    (isInDictionary c false true w st).1 = (true, MatchType.stem) ∧
    (isInDictionary (Checker.mk c.entries false c.stemmer c.handleHyphenated)
        false true w st).1 = (false, MatchType.none) := by
  constructor
  · unfold isInDictionary
    rw [if_neg (by simp [hnh])]
    unfold isInDictPlain
    dsimp only
    simp only [Bool.false_eq_true, if_false]
    rw [if_neg hmem, hstem, hf]
    dsimp only
    rw [if_pos ⟨hne, hsm⟩]
  · unfold isInDictionary
    rw [if_neg (by simp [hnh])]
    unfold isInDictPlain
    dsimp only
    simp only [Bool.false_eq_true, if_false]
    rw [if_neg (show ¬ lowStr w ∈
      wordCache (Checker.mk c.entries false c.stemmer c.handleHyphenated) from hmem)]

/-- Witness for claim C7 at the concrete store `{run}` and token
`running`, with a stemmer mapping `running` to `run`. -/
theorem c7_witness :
    (isInDictionary cC7 false true "running".data stats0).1 = (true, MatchType.stem) ∧
    (isInDictionary (Checker.mk cC7.entries false cC7.stemmer cC7.handleHyphenated)
        false true "running".data stats0).1 = (false, MatchType.none) :=
  c7_stem_fallback cC7 fC7 "running".data stats0 rfl rfl (by decide) (by decide) (by decide)
    (by decide)

/-- Claim C9: under `case_sensitive=True`, a word containing at least one
uppercase ASCII letter is never matched in its original form, because the
cache holds only lower-cased entries while the case-sensitive lookup key
is left unfolded (hyphen and stem matches report other variants). -/
theorem c9_case_sensitive_never_original (c : Checker) (aH : Bool) (w : Str) (st : Stats)
    (hu : ∃ ch ∈ w, upperChar ch = true) :
    (isInDictionary c true aH w st).1 ≠ (true, MatchType.original) := by
  obtain ⟨ch, hmem, hup⟩ := hu
  have hw : w ∉ wordCache c := fun hwc => by
    have := wordCache_no_upper c w hwc ch hmem
    rw [hup] at this
    exact absurd this (by decide)
  have hplain : ∀ st2 : Stats, (isInDictPlain c true w st2).1 ≠ (true, MatchType.original) := by
    intro st2
    unfold isInDictPlain
    dsimp only
    rw [if_pos rfl]
    rw [if_neg hw]
    cases c.useStemming <;> cases c.stemmer <;> dsimp only <;>
      first
      | (split_ifs <;> simp)
      | simp
  rw [isInDictionary_fst_eq]
  split_ifs with h1 h2
  · simp
  · exact hplain stats0
  · exact hplain stats0

/-- Witness for claim C9 at a concrete input: `Cat` against the store
`{cat}` under a case-sensitive lookup. -/
theorem c9_witness :
    (isInDictionary cC9 true true "Cat".data stats0).1 ≠ (true, MatchType.original) :=
  c9_case_sensitive_never_original cC9 true "Cat".data stats0 ⟨'C', by decide, by decide⟩

theorem found_bool_eq (c : Checker) (t : Str) (st : Stats)
    (hwf : ∀ f, c.stemmer = some f → ∀ s, lowStr (f s) = f s) :
    (isInDictionary c false true (lowStr t) st).1.1 =
      placementFound (analyzeStep c t stats0).1 := by
  rw [isInDictionary_fst_eq, analyzeStep_found]
  rw [hasHyphen_lowStr, resolveOrdered_lowStr, Bool.true_and]
  have hpb : (isInDictPlain c false (lowStr t) stats0).1.1 =
      (decide (lowStr t ∈ wordCache c) || analyzeStemBit c t) := by
    rw [isInDictPlain_found, plainFound_lowStr, plainFound_bits c t hwf]
  by_cases hb : (c.handleHyphenated && hasHyphen t) = true
  · rw [if_pos hb, hb, Bool.true_and]
    cases hr : (resolveOrdered c t).1
    · rw [if_neg (by simp [hr]), hpb]
      simp
    · rw [if_pos (by simp [hr])]
      simp
  · have hbf : (c.handleHyphenated && hasHyphen t) = false := by
      cases hx : (c.handleHyphenated && hasHyphen t)
      · rfl
      · exact absurd hx hb
    rw [if_neg hb, hbf, Bool.false_and, hpb]
    simp

theorem analyzeTokens_found_iff (c : Checker) (tokens : List Str) (st : Stats) (t : Str) :
    (t ∈ (analyzeTokens c tokens st).1.foundTokens ∨
     t ∈ (analyzeTokens c tokens st).1.hyphenatedFoundTokens ∨
     t ∈ (analyzeTokens c tokens st).1.stemFoundTokens) ↔
    (t ∈ tokens ∧ placementFound (analyzeStep c t stats0).1 = true) := by
  induction tokens generalizing st with
  | nil => simp [analyzeTokens, emptyAcc]
  | cons u rest ih =>
    unfold analyzeTokens
    dsimp only
    have hinv : placementFound (analyzeStep c u st).1 =
        placementFound (analyzeStep c u stats0).1 := by
      rw [analyzeStep_found, analyzeStep_found]
    have ihr := ih ((analyzeStep c u st).2)
    by_cases htu : t = u
    · subst htu
      cases hp : (analyzeStep c t st).1 with
      | notFound =>
        have hpf : placementFound (analyzeStep c t stats0).1 = false := by
          rw [← hinv, hp]
          rfl
        dsimp only
        simp [List.mem_cons, ihr, hpf]
      | original =>
        have hpf : placementFound (analyzeStep c t stats0).1 = true := by
          rw [← hinv, hp]
          rfl
        dsimp only
        simp [List.mem_cons, ihr, hpf]
      | hyphenated h d =>
        have hpf : placementFound (analyzeStep c t stats0).1 = true := by
          rw [← hinv, hp]
          rfl
        dsimp only
        simp [List.mem_cons, ihr, hpf]
      | stem s2 =>
        have hpf : placementFound (analyzeStep c t stats0).1 = true := by
          rw [← hinv, hp]
          rfl
        dsimp only
        simp [List.mem_cons, ihr, hpf]
    · cases hp : (analyzeStep c u st).1 <;> dsimp only <;>
        simp [List.mem_cons, htu, ihr]

/-- Claim C10: the two classification paths agree on the found/not-found
boolean — for every token of a stream, `is_in_dictionary` applied to the
case-folded token reports found exactly when `analyze_tokens` places the
token in one of its three found lists, provided the stemming algorithm
returns case-folded output (as the NLTK stemmers applied to lower-cased
input do), even though the two paths order the hyphen and exact-lookup
strategies differently. -/
theorem c10_paths_agree (c : Checker) (tokens : List Str) (t : Str) (st st2 : Stats)
    (hwf : ∀ f, c.stemmer = some f → ∀ s, lowStr (f s) = f s) (ht : t ∈ tokens) :
    ((isInDictionary c false true (lowStr t) st).1.1 = true ↔
      (t ∈ (analyzeTokens c tokens st2).1.foundTokens ∨
       t ∈ (analyzeTokens c tokens st2).1.hyphenatedFoundTokens ∨
       t ∈ (analyzeTokens c tokens st2).1.stemFoundTokens)) := by
  rw [found_bool_eq c t st hwf, analyzeTokens_found_iff]
  constructor
  · intro h
    exact ⟨ht, h⟩
  · intro h
    exact h.2

/-- Witness for claim C10 at a concrete stream. -/
theorem c10_witness :
    ((isInDictionary cC10 false true (lowStr "Cat".data) stats0).1.1 = true ↔
      ("Cat".data ∈ (analyzeTokens cC10 [ "Cat".data ] stats0).1.foundTokens ∨
       "Cat".data ∈ (analyzeTokens cC10 [ "Cat".data ] stats0).1.hyphenatedFoundTokens ∨
       "Cat".data ∈ (analyzeTokens cC10 [ "Cat".data ] stats0).1.stemFoundTokens)) :=
  c10_paths_agree cC10 [ "Cat".data ] "Cat".data stats0 stats0 (fun f hf => nomatch hf)
    (by decide)

end DictCheck
